import Mathlib

/-!
Verification of the embedded deferred-task scheduler
(`src/include/scheduler/scheduler.hpp`, template class `Scheduler<CPU, MaxTaskCount>`).

The C++ core keeps a fixed-capacity array `_taskList` whose live prefix
`[0, _taskCount)` is sorted by absolute execution tick under wrap-aware
32-bit comparison.  We embed the live prefix as a `List Task` (head = slot 0),
the capacity `MaxTaskCount` as an explicit parameter `N`, and the sampled
`CPU::getSystemTick()` value as an explicit argument `now`.  All unsigned
32-bit arithmetic is `Nat` arithmetic modulo `2^32 = 4294967296`; the C++
`static_cast<int32_t>(a - b) < 0` test is `2147483648 ≤ sub32 a b`.
User callbacks (`func`, `param`) are opaque pointers in the source and are
embedded as opaque `Nat` tags; `update` returns the list of dispatched tasks
in dispatch order instead of invoking them.
-/

namespace Sched

/-- 32-bit unsigned subtraction `a - b` (the C++ expression `a - b` on
`uint32_t` operands), as a natural number in `[0, 2^32)`. -/
def sub32 (a b : Nat) : Nat :=
  (a + (4294967296 - b % 4294967296)) % 4294967296

/-- `static_cast<int32_t>(now - t) ≥ 0`: the task with `executeTime = t`
is due at tick `now` (the negation of the guard in `Scheduler::update`). -/
def dueCond (now t : Nat) : Bool :=
  decide (sub32 now t < 2147483648)

/-- `static_cast<int32_t>(target - t) < 0`: the shift condition of the
insertion loop in `Scheduler::scheduleTask`. -/
def shiftCond (target t : Nat) : Bool :=
  decide (2147483648 ≤ sub32 target t)

/-- The `Task` record of the source: absolute due tick, callback pointer,
callback parameter (both embedded as opaque tags), and task identifier. -/
structure Task where
  executeTime : Nat
  func : Nat
  param : Nat
  id : Nat
deriving DecidableEq

/-- Scheduler state: the live prefix `_taskList[0, _taskCount)` as a list
(`taskCount` is its length) and the identity counter `_id`. -/
structure Scheduler where
  taskList : List Task
  id : Nat
deriving DecidableEq

/-- Zero-initialised scheduler: `_taskCount = 0`, `_id = 1`. -/
def initScheduler : Scheduler := ⟨[], 1⟩

/-- Ids of the live tasks, in table order. -/
def ids (l : List Task) : List Nat := l.map Task.id

/-- Remove the first task whose id equals `tid` (the scan-shift-break loop
shared by `Scheduler::unscheduleTask` and the reuse branch of
`Scheduler::scheduleTask`). -/
def removeFirstById (tid : Nat) : List Task → List Task
  | [] => []
  | t :: ts => if t.id = tid then ts else t :: removeFirstById tid ts

/-- `Scheduler::unscheduleTask`. -/
def unscheduleTask (tid : Nat) (s : Scheduler) : Scheduler :=
  { s with taskList := removeFirstById tid s.taskList }

/-- The insertion scan of `Scheduler::scheduleTask`, expressed on the
reversed table: starting from the last live slot, slots satisfying
`shiftCond` are shifted one position back (skipped over); the new task is
placed right after the first slot (from the end) that is not shifted. -/
def insertScan (nt : Task) (target : Nat) : List Task → List Task
  | [] => [nt]
  | t :: ts =>
    if shiftCond target t.executeTime then t :: insertScan nt target ts
    else nt :: t :: ts

/-- Sorted insertion as performed by `Scheduler::scheduleTask` (back-to-front
shifting scan on the table in slot order). -/
def insertTask (nt : Task) (target : Nat) (l : List Task) : List Task :=
  (insertScan nt target l.reverse).reverse

/-- `Scheduler::scheduleTask`.  `now` is the tick sampled by
`CPU::getSystemTick()` before the critical section; returns the id given to
the caller together with the post-state. -/
def scheduleTask (N : Nat) (func param now delay reuseId : Nat)
    (s : Scheduler) : Nat × Scheduler :=
  let target := (now + delay) % 4294967296
  let l1 := if reuseId ≠ 0 then removeFirstById reuseId s.taskList
            else s.taskList
  if N ≤ l1.length then (0, { s with taskList := l1 })
  else
    let newId := if reuseId ≠ 0 then reuseId else s.id
    let ctr := if reuseId ≠ 0 then s.id else (s.id + 1) % 4294967296
    (newId, ⟨insertTask ⟨target, func, param, newId⟩ target l1, ctr⟩)

/-- The drain loop of `Scheduler::update`: while the table is nonempty and
the head task is due at `now`, pop the head and dispatch it.  Returns the
dispatched tasks in dispatch order together with the remaining table.
(The early `return` the source takes when the table becomes empty at a
removal exits the loop exactly when the `_taskCount == 0` check of the next
iteration would, so the drained/remaining lists are unchanged by it.) -/
def drainLoop (now : Nat) : List Task → List Task × List Task
  | [] => ([], [])
  | t :: ts =>
    if dueCond now t.executeTime then
      let p := drainLoop now ts
      (t :: p.1, p.2)
    else ([], t :: ts)

/-- `Scheduler::update` with the single sampled tick `now`: dispatched tasks
in dispatch order, and the post-state. -/
def update (now : Nat) (s : Scheduler) : List Task × Scheduler :=
  let p := drainLoop now s.taskList
  (p.1, { s with taskList := p.2 })

/-- Spec §3 invariant 2: adjacent live slots are sorted under wrap-aware
comparison, `signed32(taskList[i+1].executeTime - taskList[i].executeTime) ≥ 0`. -/
def sortedWrap (l : List Task) : Prop :=
  List.Chain' (fun a b => sub32 b.executeTime a.executeTime < 2147483648) l

instance : DecidablePred sortedWrap := fun l =>
  inferInstanceAs (Decidable (List.Chain'
    (fun (a b : Task) => sub32 b.executeTime a.executeTime < 2147483648) l))

/-- `t` lies in the half-window of length `2^31` starting at `base`
(formalising the spec precondition that all pending deadlines span less
than `2^31` ticks). -/
def inWindow (base t : Nat) : Prop := sub32 t base < 2147483648

instance (base t : Nat) : Decidable (inWindow base t) :=
  inferInstanceAs (Decidable (sub32 t base < 2147483648))

/-- One fresh-id schedule immediately followed by unscheduling the returned
id, on a capacity-1 scheduler (callback tag 0, tick 0, delay 0).  Iterating
this reaches the identity-counter wrap states of the source. -/
def rtStep (s : Scheduler) : Scheduler :=
  let r := scheduleTask 1 0 0 0 0 0 s
  unscheduleTask r.1 r.2

theorem sub32_mod_left (a b : Nat) : sub32 (a % 4294967296) b = sub32 a b := by
  unfold sub32; omega

theorem sub32_mod_right (a b : Nat) : sub32 a (b % 4294967296) = sub32 a b := by
  unfold sub32; omega

theorem sub32_self_mod (a b : Nat) (h : a % 4294967296 = b % 4294967296) :
    sub32 a b = 0 := by
  unfold sub32; omega

/-- Within a common half-window, wrap-aware comparison agrees with
comparison of the offsets from the window base. -/
theorem sub32_window (base a b : Nat)
    (ha : sub32 a base < 2147483648) (hb : sub32 b base < 2147483648) :
    sub32 b a < 2147483648 ↔ sub32 a base ≤ sub32 b base := by
  unfold sub32 at *; omega

/-- Dueness at `now`, inside a common window, is comparison of offsets. -/
theorem due_iff (base now t : Nat) (ht : inWindow base t) (hn : inWindow base now) :
    dueCond now t = true ↔ sub32 t base ≤ sub32 now base := by
  unfold dueCond
  rw [decide_eq_true_iff]
  exact sub32_window base t now ht hn

/-- The insertion-shift condition, inside a common window, is strict
comparison of offsets. -/
theorem shift_iff (base target t : Nat)
    (ht : inWindow base t) (htgt : inWindow base target) :
    shiftCond target t = true ↔ sub32 target base < sub32 t base := by
  unfold shiftCond
  rw [decide_eq_true_iff]
  constructor
  · intro h
    by_contra hc
    have := (sub32_window base t target ht htgt).mpr (by omega)
    omega
  · intro h
    by_contra hc
    have := (sub32_window base t target ht htgt).mp (by omega)
    omega

/-- A slot whose deadline equals the insertion target is never shifted. -/
theorem shift_eq_deadline (target t : Nat) (h : t % 4294967296 = target % 4294967296) :
    shiftCond target t = false := by
  unfold shiftCond
  have := sub32_self_mod target t h.symm
  simp [this]

theorem drain_spec (now : Nat) (l : List Task) :
    drainLoop now l = (l.takeWhile (fun t => dueCond now t.executeTime),
                       l.dropWhile (fun t => dueCond now t.executeTime)) := by
  induction l with
  | nil => rfl
  | cons t ts ih =>
    by_cases h : dueCond now t.executeTime
    · simp [drainLoop, h, ih, List.takeWhile_cons, List.dropWhile_cons]
    · simp [drainLoop, h, List.takeWhile_cons, List.dropWhile_cons]

theorem insertScan_spec (nt : Task) (target : Nat) (l : List Task) :
    insertScan nt target l
      = l.takeWhile (fun t => shiftCond target t.executeTime)
        ++ nt :: l.dropWhile (fun t => shiftCond target t.executeTime) := by
  induction l with
  | nil => rfl
  | cons t ts ih =>
    by_cases h : shiftCond target t.executeTime
    · simp [insertScan, h, ih, List.takeWhile_cons, List.dropWhile_cons]
    · simp [insertScan, h, List.takeWhile_cons, List.dropWhile_cons]

theorem removeFirstById_of_not_mem (tid : Nat) (l : List Task)
    (h : tid ∉ ids l) : removeFirstById tid l = l := by
  induction l with
  | nil => rfl
  | cons t ts ih =>
    simp only [ids, List.map_cons, List.mem_cons] at h
    push_neg at h
    simp only [removeFirstById, if_neg (Ne.symm h.1)]
    rw [ih (by simpa [ids] using h.2)]

theorem removeFirstById_sublist (tid : Nat) (l : List Task) :
    (removeFirstById tid l).Sublist l := by
  induction l with
  | nil => simp [removeFirstById]
  | cons t ts ih =>
    by_cases h : t.id = tid
    · simp only [removeFirstById, if_pos h]
      exact List.sublist_cons_self t ts
    · simpa [removeFirstById, h] using ih.cons₂ t

theorem removeFirstById_append (tid : Nat) (t : Task) (l1 l2 : List Task)
    (ht : t.id = tid) (h1 : tid ∉ ids l1) :
    removeFirstById tid (l1 ++ t :: l2) = l1 ++ l2 := by
  induction l1 with
  | nil => simp [removeFirstById, ht]
  | cons a as ih =>
    simp only [ids, List.map_cons, List.mem_cons] at h1
    push_neg at h1
    simp only [List.cons_append, removeFirstById, if_neg (Ne.symm h1.1), List.append_eq]
    rw [ih (by simpa [ids] using h1.2)]

theorem length_removeFirstById_of_mem (tid : Nat) (l : List Task)
    (h : tid ∈ ids l) : (removeFirstById tid l).length + 1 = l.length := by
  induction l with
  | nil => simp [ids] at h
  | cons t ts ih =>
    by_cases he : t.id = tid
    · simp [removeFirstById, he]
    · simp only [ids, List.map_cons, List.mem_cons] at h
      have : tid ∈ ids ts := by
        rcases h with h | h
        · exact absurd h.symm he
        · simpa [ids] using h
      simp [removeFirstById, he, List.length_cons, ← ih this]

theorem takeWhile_eq_filter_of_pairwise {α : Type} (p : α → Bool) (l : List α)
    (hp : l.Pairwise (fun a b => p b = true → p a = true)) :
    l.takeWhile p = l.filter p
      ∧ l.dropWhile p = l.filter (fun t => !p t) := by
  induction l with
  | nil => exact ⟨rfl, rfl⟩
  | cons a l ih =>
    rw [List.pairwise_cons] at hp
    obtain ⟨ih1, ih2⟩ := ih hp.2
    by_cases h : p a
    · constructor
      · simp [List.takeWhile_cons, h, ih1]
      · simp [List.dropWhile_cons, h, ih2]
    · have hall : ∀ b ∈ l, ¬ p b = true := fun b hb hpb => h (hp.1 b hb hpb)
      constructor
      · rw [List.takeWhile_cons]
        simp only [h, if_false, Bool.false_eq_true]
        rw [List.filter_cons]
        simp only [h, if_false, Bool.false_eq_true]
        rw [List.filter_eq_nil_iff.mpr hall]
      · rw [List.dropWhile_cons]
        simp only [h, Bool.false_eq_true, if_false]
        rw [List.filter_cons]
        have : (!p a) = true := by simp [h]
        simp only [this, if_true]
        rw [List.filter_eq_self.mpr (fun b hb => by simp [hall b hb])]

theorem head_le_of_sortedWrap (base : Nat) (a : Task) (l : List Task)
    (hs : sortedWrap (a :: l))
    (hw : ∀ t ∈ a :: l, inWindow base t.executeTime) :
    ∀ b ∈ l, sub32 a.executeTime base ≤ sub32 b.executeTime base := by
  induction l generalizing a with
  | nil => intro b hb; simp at hb
  | cons c l ih =>
    rw [sortedWrap, List.chain'_cons] at hs
    have wa : inWindow base a.executeTime := hw a (by simp)
    have wc : inWindow base c.executeTime := hw c (by simp)
    have hac : sub32 a.executeTime base ≤ sub32 c.executeTime base :=
      (sub32_window base a.executeTime c.executeTime wa wc).mp hs.1
    intro b hb
    rcases List.mem_cons.mp hb with rfl | hb
    · exact hac
    · exact le_trans hac (ih c hs.2 (fun t ht => hw t (by simp at ht ⊢; tauto)) b hb)

theorem sortedOff_of_sortedWrap (base : Nat) (l : List Task)
    (hw : ∀ t ∈ l, inWindow base t.executeTime) (hs : sortedWrap l) :
    l.Pairwise (fun x y => sub32 x.executeTime base ≤ sub32 y.executeTime base) := by
  induction l with
  | nil => exact List.Pairwise.nil
  | cons a l ih =>
    rw [List.pairwise_cons]
    refine ⟨head_le_of_sortedWrap base a l hs hw, ih (fun t ht => hw t (by simp [ht])) ?_⟩
    exact hs.tail

theorem sortedWrap_of_sortedOff (base : Nat) (l : List Task)
    (hw : ∀ t ∈ l, inWindow base t.executeTime)
    (hp : l.Pairwise (fun x y => sub32 x.executeTime base ≤ sub32 y.executeTime base)) :
    sortedWrap l := by
  refine List.Pairwise.chain' (List.Pairwise.imp_of_mem ?_ hp)
  intro a b ha hb hle
  exact (sub32_window base a.executeTime b.executeTime (hw a ha) (hw b hb)).mpr hle

theorem sortedWrap_sublist (base : Nat) (l l2 : List Task)
    (hw : ∀ t ∈ l, inWindow base t.executeTime) (hs : sortedWrap l)
    (hsub : l2.Sublist l) : sortedWrap l2 := by
  refine sortedWrap_of_sortedOff base l2 (fun t ht => hw t (hsub.mem ht)) ?_
  exact List.Pairwise.sublist hsub (sortedOff_of_sortedWrap base l hw hs)

theorem sortedWrap_dropWhile (p : Task → Bool) (l : List Task)
    (hs : sortedWrap l) : sortedWrap (l.dropWhile p) := by
  have hsuf : l.dropWhile p <:+ l := List.dropWhile_suffix p
  obtain ⟨pre, hpre⟩ := hsuf
  rw [sortedWrap, ← hpre] at hs
  exact hs.right_of_append

theorem insertTask_split (nt : Task) (target : Nat) (l : List Task) :
    insertTask nt target l
      = (l.reverse.dropWhile (fun t => shiftCond target t.executeTime)).reverse
        ++ nt :: (l.reverse.takeWhile (fun t => shiftCond target t.executeTime)).reverse
    ∧ (l.reverse.dropWhile (fun t => shiftCond target t.executeTime)).reverse
        ++ (l.reverse.takeWhile (fun t => shiftCond target t.executeTime)).reverse = l := by
  constructor
  · unfold insertTask
    rw [insertScan_spec]
    simp
  · have h := List.takeWhile_append_dropWhile
      (fun t => shiftCond target t.executeTime) l.reverse
    rw [← List.reverse_append, h]
    simp

theorem insertTask_filter (base : Nat) (nt : Task) (target : Nat) (l : List Task)
    (hs : sortedWrap l) (hw : ∀ t ∈ l, inWindow base t.executeTime)
    (htgt : inWindow base target) :
    insertTask nt target l
      = l.filter (fun t => !shiftCond target t.executeTime)
        ++ nt :: l.filter (fun t => shiftCond target t.executeTime) := by
  have hoff := sortedOff_of_sortedWrap base l hw hs
  have hrev : l.reverse.Pairwise
      (fun a b => shiftCond target b.executeTime = true
                → shiftCond target a.executeTime = true) := by
    rw [List.pairwise_reverse]
    refine List.Pairwise.imp_of_mem ?_ hoff
    intro a b ha hb hle hsa
    rw [shift_iff base target a.executeTime (hw a ha) htgt] at hsa
    rw [shift_iff base target b.executeTime (hw b hb) htgt]
    omega
  obtain ⟨htake, hdrop⟩ := takeWhile_eq_filter_of_pairwise
    (fun t => shiftCond target t.executeTime) l.reverse hrev
  rw [(insertTask_split nt target l).1, htake, hdrop]
  simp

theorem sortedWrap_insertTask (base : Nat) (nt : Task) (target : Nat) (l : List Task)
    (hs : sortedWrap l) (hw : ∀ t ∈ l, inWindow base t.executeTime)
    (htgt : inWindow base target) (hnt : nt.executeTime = target) :
    sortedWrap (insertTask nt target l) := by
  rw [insertTask_filter base nt target l hs hw htgt]
  have hoff := sortedOff_of_sortedWrap base l hw hs
  have hwres : ∀ t ∈ l.filter (fun t => !shiftCond target t.executeTime)
      ++ nt :: l.filter (fun t => shiftCond target t.executeTime),
      inWindow base t.executeTime := by
    intro t ht
    rcases List.mem_append.mp ht with h | h
    · exact hw t (List.mem_filter.mp h).1
    · rcases List.mem_cons.mp h with rfl | h
      · rw [hnt]; exact htgt
      · exact hw t (List.mem_filter.mp h).1
  refine sortedWrap_of_sortedOff base _ hwres ?_
  have hsubA : (l.filter (fun t => !shiftCond target t.executeTime)).Sublist l :=
    List.filter_sublist l
  have hsubB : (l.filter (fun t => shiftCond target t.executeTime)).Sublist l :=
    List.filter_sublist l
  have hA := List.Pairwise.sublist hsubA hoff
  have hB := List.Pairwise.sublist hsubB hoff
  have hBlo : ∀ b ∈ l.filter (fun t => shiftCond target t.executeTime),
      sub32 target base < sub32 b.executeTime base := by
    intro b hb
    obtain ⟨hbl, hpb⟩ := List.mem_filter.mp hb
    exact (shift_iff base target b.executeTime (hw b hbl) htgt).mp hpb
  have hAhi : ∀ a ∈ l.filter (fun t => !shiftCond target t.executeTime),
      sub32 a.executeTime base ≤ sub32 target base := by
    intro a ha
    obtain ⟨hal, hpa⟩ := List.mem_filter.mp ha
    have : ¬ shiftCond target a.executeTime = true := by simpa using hpa
    rw [shift_iff base target a.executeTime (hw a hal) htgt] at this
    omega
  rw [List.pairwise_append]
  refine ⟨hA, ?_, ?_⟩
  · rw [List.pairwise_cons]
    refine ⟨fun b hb => ?_, hB⟩
    have := hBlo b hb
    rw [hnt]
    omega
  · intro a ha b hb
    rcases List.mem_cons.mp hb with rfl | hb
    · rw [hnt]; exact hAhi a ha
    · exact le_trans (hAhi a ha) (le_of_lt (hBlo b hb))

theorem not_mem_removeFirstById (tid : Nat) (l : List Task)
    (hnd : (ids l).Nodup) : tid ∉ ids (removeFirstById tid l) := by
  induction l with
  | nil => simp [removeFirstById, ids]
  | cons t ts ih =>
    simp only [ids, List.map_cons, List.nodup_cons] at hnd
    by_cases he : t.id = tid
    · simp only [removeFirstById, if_pos he]
      rw [← he]
      exact fun hm => hnd.1 (by simpa [ids] using hm)
    · simp only [removeFirstById, if_neg he, ids, List.map_cons, List.mem_cons]
      push_neg
      exact ⟨fun hc => he hc.symm, by simpa [ids] using ih hnd.2⟩

/-- Unfolding of `scheduleTask` into its two exit paths (capacity failure
after the reuse-removal, and sorted insertion). -/
theorem scheduleTask_eq (N func param now delay reuseId : Nat) (s : Scheduler) :
    scheduleTask N func param now delay reuseId s
      = if N ≤ (if reuseId ≠ 0 then removeFirstById reuseId s.taskList
                else s.taskList).length
        then (0, { s with taskList := if reuseId ≠ 0
                    then removeFirstById reuseId s.taskList else s.taskList })
        else ((if reuseId ≠ 0 then reuseId else s.id),
              ⟨insertTask
                  ⟨(now + delay) % 4294967296, func, param,
                   if reuseId ≠ 0 then reuseId else s.id⟩
                  ((now + delay) % 4294967296)
                  (if reuseId ≠ 0 then removeFirstById reuseId s.taskList
                   else s.taskList),
               if reuseId ≠ 0 then s.id else (s.id + 1) % 4294967296⟩) := by
  unfold scheduleTask
  rfl

/-- Claim C1: for every scheduler state (satisfying the table invariant:
sorted under wrap-aware comparison, with all deadlines and the sampled tick
in a common half-window, the spec's delay-below-2^31 precondition) and the
single tick `now` sampled before the drain loop, `update` dispatches exactly
the tasks with `signed32(now - executeTime) ≥ 0`, dispatching from the head
of the table one at a time (the dispatched list is the maximal due prefix,
in table order), and returns leaving exactly the tasks with
`signed32(now - executeTime) < 0` pending, the identity counter unchanged. -/
theorem claim1_update_dispatches_due (base now : Nat) (s : Scheduler)
    (hs : sortedWrap s.taskList)
    (hw : ∀ t ∈ s.taskList, inWindow base t.executeTime)
    (hn : inWindow base now) :
    (update now s).1 = s.taskList.filter (fun t => dueCond now t.executeTime)
  ∧ (update now s).1 = s.taskList.takeWhile (fun t => dueCond now t.executeTime)
  ∧ (update now s).2.taskList
      = s.taskList.filter (fun t => !dueCond now t.executeTime)
  ∧ (update now s).2.id = s.id := by
  have hoff := sortedOff_of_sortedWrap base s.taskList hw hs
  have hp : s.taskList.Pairwise
      (fun a b => dueCond now b.executeTime = true
                → dueCond now a.executeTime = true) := by
    refine List.Pairwise.imp_of_mem ?_ hoff
    intro a b ha hb hle hdb
    rw [due_iff base now b.executeTime (hw b hb) hn] at hdb
    rw [due_iff base now a.executeTime (hw a ha) hn]
    omega
  obtain ⟨htake, hdrop⟩ := takeWhile_eq_filter_of_pairwise
    (fun t => dueCond now t.executeTime) s.taskList hp
  have h1 : (update now s).1
      = s.taskList.takeWhile (fun t => dueCond now t.executeTime) := by
    simp [update, drain_spec]
  have h2 : (update now s).2.taskList
      = s.taskList.dropWhile (fun t => dueCond now t.executeTime) := by
    simp [update, drain_spec]
  exact ⟨h1.trans htake, h1, h2.trans hdrop, rfl⟩

theorem claim1_witness :
    (update 5 (Scheduler.mk [⟨3, 0, 0, 1⟩, ⟨7, 0, 0, 2⟩] 3)).1 = [⟨3, 0, 0, 1⟩]
  ∧ (update 5 (Scheduler.mk [⟨3, 0, 0, 1⟩, ⟨7, 0, 0, 2⟩] 3)).2.taskList
      = [⟨7, 0, 0, 2⟩]
  ∧ (update 5 (Scheduler.mk [⟨3, 0, 0, 1⟩, ⟨7, 0, 0, 2⟩] 3)).2.id = 3 := by
  have h := claim1_update_dispatches_due 0 5
    (Scheduler.mk [⟨3, 0, 0, 1⟩, ⟨7, 0, 0, 2⟩] 3)
    (by simp only [sortedWrap, List.chain'_cons, List.chain'_singleton]; decide)
    (by decide) (by decide)
  exact ⟨h.1.trans (by decide), h.2.2.1.trans (by decide), h.2.2.2.trans rfl⟩

/-- Claim C5: the insertion scan of `scheduleTask` shifts a slot only when
`signed32(target - slot.executeTime)` is strictly negative: on a sorted
windowed table the newcomer lands after every slot that is not shifted, in
particular after every slot whose deadline equals `target` (such slots are
never shifted); and `update` dispatches in table order (the dispatched list
is the maximal due prefix of the table), so equal-deadline tasks are
dispatched FIFO in schedule order. -/
theorem claim5_fifo_tiebreak (base target now : Nat) (nt : Task) (l : List Task)
    (hs : sortedWrap l) (hw : ∀ t ∈ l, inWindow base t.executeTime)
    (htgt : inWindow base target) :
    insertTask nt target l
      = l.filter (fun t => !shiftCond target t.executeTime)
        ++ nt :: l.filter (fun t => shiftCond target t.executeTime)
  ∧ (∀ t ∈ l, t.executeTime % 4294967296 = target % 4294967296 →
        shiftCond target t.executeTime = false)
  ∧ (drainLoop now l).1 = l.takeWhile (fun t => dueCond now t.executeTime) := by
  refine ⟨insertTask_filter base nt target l hs hw htgt, ?_, ?_⟩
  · intro t _ h
    exact shift_eq_deadline target t.executeTime h
  · rw [drain_spec]

theorem claim5_witness :
    insertTask ⟨10, 8, 0, 2⟩ 10 [⟨10, 7, 0, 1⟩]
      = [⟨10, 7, 0, 1⟩, ⟨10, 8, 0, 2⟩]
  ∧ shiftCond 10 10 = false
  ∧ (drainLoop 10 [⟨10, 7, 0, 1⟩, ⟨10, 8, 0, 2⟩]).1
      = [⟨10, 7, 0, 1⟩, ⟨10, 8, 0, 2⟩] := by
  have h := claim5_fifo_tiebreak 0 10 10 ⟨10, 8, 0, 2⟩ [⟨10, 7, 0, 1⟩]
    (by simp only [sortedWrap, List.chain'_singleton]) (by decide) (by decide)
  refine ⟨h.1.trans (by decide), ?_, ?_⟩
  · exact h.2.1 ⟨10, 7, 0, 1⟩ (by decide) (by decide)
  · have h2 := claim5_fifo_tiebreak 0 10 10 ⟨10, 8, 0, 2⟩
      [⟨10, 7, 0, 1⟩, ⟨10, 8, 0, 2⟩]
      (by simp only [sortedWrap, List.chain'_cons, List.chain'_singleton]; decide)
      (by decide) (by decide)
    exact h2.2.2.trans (by decide)

/-- Claim C9: `unscheduleTask` with an id matching no live task leaves the
whole scheduler state (table, count, identity counter) unchanged and never
fails, hence repeating it is a no-op. -/
theorem claim9_unschedule_noop (tid : Nat) (s : Scheduler)
    (h : tid ∉ ids s.taskList) :
    unscheduleTask tid s = s
  ∧ unscheduleTask tid (unscheduleTask tid s) = unscheduleTask tid s := by
  have h1 : unscheduleTask tid s = s := by
    unfold unscheduleTask
    rw [removeFirstById_of_not_mem tid s.taskList h]
  exact ⟨h1, by rw [h1]; exact h1⟩

theorem claim9_witness :
    unscheduleTask 5 (Scheduler.mk [⟨3, 0, 0, 1⟩] 2)
      = Scheduler.mk [⟨3, 0, 0, 1⟩] 2
  ∧ unscheduleTask 5 (unscheduleTask 5 (Scheduler.mk [⟨3, 0, 0, 1⟩] 2))
      = unscheduleTask 5 (Scheduler.mk [⟨3, 0, 0, 1⟩] 2) :=
  claim9_unschedule_noop 5 (Scheduler.mk [⟨3, 0, 0, 1⟩] 2) (by decide)

/-- Claim C2: each of the three public operations preserves the sortedness
invariant — for every adjacent pair of live slots,
`signed32(taskList[i+1].executeTime - taskList[i].executeTime) ≥ 0` — under
the spec's delay-below-2^31 precondition, formalised as: all pending
deadlines and the new target deadline lie in a common half-window of length
`2^31`. -/
theorem claim2_ops_preserve_sorted
    (base N func param now delay reuseId tid now2 : Nat) (s : Scheduler)
    (hs : sortedWrap s.taskList)
    (hw : ∀ t ∈ s.taskList, inWindow base t.executeTime)
    (htgt : inWindow base ((now + delay) % 4294967296)) :
    sortedWrap (scheduleTask N func param now delay reuseId s).2.taskList
  ∧ sortedWrap (unscheduleTask tid s).taskList
  ∧ sortedWrap (update now2 s).2.taskList := by
  refine ⟨?_, ?_, ?_⟩
  · rw [scheduleTask_eq]
    have hsub : (if reuseId ≠ 0 then removeFirstById reuseId s.taskList
        else s.taskList).Sublist s.taskList := by
      split
      · exact removeFirstById_sublist _ _
      · exact List.Sublist.refl _
    have hs1 := sortedWrap_sublist base s.taskList _ hw hs hsub
    have hw1 : ∀ t ∈ (if reuseId ≠ 0 then removeFirstById reuseId s.taskList
        else s.taskList), inWindow base t.executeTime :=
      fun t ht => hw t (hsub.mem ht)
    by_cases hcap : N ≤ (if reuseId ≠ 0 then removeFirstById reuseId s.taskList
        else s.taskList).length
    · rw [if_pos hcap]
      exact hs1
    · rw [if_neg hcap]
      exact sortedWrap_insertTask base _ _ _ hs1 hw1 htgt rfl
  · exact sortedWrap_sublist base s.taskList _ hw hs
      (removeFirstById_sublist tid s.taskList)
  · have h2 : (update now2 s).2.taskList
        = s.taskList.dropWhile (fun t => dueCond now2 t.executeTime) := by
      simp [update, drain_spec]
    rw [h2]
    exact sortedWrap_dropWhile _ s.taskList hs

theorem claim2_witness :
    sortedWrap (scheduleTask 10 7 0 0 5 0
      (Scheduler.mk [⟨3, 0, 0, 1⟩, ⟨7, 0, 0, 2⟩] 3)).2.taskList
  ∧ sortedWrap (unscheduleTask 1
      (Scheduler.mk [⟨3, 0, 0, 1⟩, ⟨7, 0, 0, 2⟩] 3)).taskList
  ∧ sortedWrap (update 5
      (Scheduler.mk [⟨3, 0, 0, 1⟩, ⟨7, 0, 0, 2⟩] 3)).2.taskList :=
  claim2_ops_preserve_sorted 0 10 7 0 0 5 0 1 5
    (Scheduler.mk [⟨3, 0, 0, 1⟩, ⟨7, 0, 0, 2⟩] 3)
    (by simp only [sortedWrap, List.chain'_cons, List.chain'_singleton]; decide)
    (by decide) (by decide)

/-- Claim C6: tick arithmetic is modulo 2^32.  A fresh schedule into an
empty table stores `executeTime = (now + delay) mod 2^32`; in particular
scheduling at `now = 2^32 - 10` with `delay = 20` stores deadline 10, an
`update` whose sampled tick lies in `[2^32 - 10, 2^32 - 1]` dispatches
nothing and leaves the table unchanged, and an `update` sampled at tick 10
dispatches the task and empties the table. -/
theorem claim6_wrap_arithmetic (c f p now delay u : Nat)
    (h1 : 4294967286 ≤ u) (h2 : u < 4294967296) :
    (scheduleTask 10 f p now delay 0 (Scheduler.mk [] c)).2.taskList
        = [⟨(now + delay) % 4294967296, f, p, c⟩]
  ∧ (scheduleTask 10 f p 4294967286 20 0 (Scheduler.mk [] c)).2.taskList
        = [⟨10, f, p, c⟩]
  ∧ (update u (scheduleTask 10 f p 4294967286 20 0 (Scheduler.mk [] c)).2).1
        = []
  ∧ (update u (scheduleTask 10 f p 4294967286 20 0
        (Scheduler.mk [] c)).2).2.taskList = [⟨10, f, p, c⟩]
  ∧ (update 10 (scheduleTask 10 f p 4294967286 20 0 (Scheduler.mk [] c)).2).1
        = [⟨10, f, p, c⟩]
  ∧ (update 10 (scheduleTask 10 f p 4294967286 20 0
        (Scheduler.mk [] c)).2).2.taskList = [] := by
  have hgen : ∀ n d : Nat,
      (scheduleTask 10 f p n d 0 (Scheduler.mk [] c)).2.taskList
        = [⟨(n + d) % 4294967296, f, p, c⟩] := by
    intro n d
    rw [scheduleTask_eq]
    simp [insertTask, insertScan]
  have h20 : (4294967286 + 20) % 4294967296 = 10 := by norm_num
  have hsched : (scheduleTask 10 f p 4294967286 20 0
      (Scheduler.mk [] c)).2.taskList = [⟨10, f, p, c⟩] := by
    rw [hgen 4294967286 20, h20]
  have hdueu : dueCond u 10 = false := by
    simp only [dueCond, sub32, decide_eq_false_iff_not]
    omega
  have hdue10 : dueCond 10 10 = true := by decide
  refine ⟨hgen now delay, hsched, ?_, ?_, ?_, ?_⟩
  · simp [update, hsched, drainLoop, hdueu]
  · simp [update, hsched, drainLoop, hdueu]
  · simp [update, hsched, drainLoop, hdue10]
  · simp [update, hsched, drainLoop, hdue10]

theorem claim6_witness :
    (scheduleTask 10 3 4 100 20 0 (Scheduler.mk [] 1)).2.taskList
        = [⟨120, 3, 4, 1⟩]
  ∧ (scheduleTask 10 3 4 4294967286 20 0 (Scheduler.mk [] 1)).2.taskList
        = [⟨10, 3, 4, 1⟩]
  ∧ (update 4294967295 (scheduleTask 10 3 4 4294967286 20 0
        (Scheduler.mk [] 1)).2).1 = []
  ∧ (update 10 (scheduleTask 10 3 4 4294967286 20 0
        (Scheduler.mk [] 1)).2).1 = [⟨10, 3, 4, 1⟩] := by
  have h := claim6_wrap_arithmetic 1 3 4 100 20 4294967295
    (by decide) (by decide)
  exact ⟨h.1.trans (by decide), h.2.1, h.2.2.1, h.2.2.2.2.1⟩

/-- Claim C10: a `scheduleTask` call with non-zero `reuseId` matching no
live task behaves as a plain insert (capacity permitting it inserts a task
carrying `id = reuseId` and returns `reuseId`), never touches the identity
counter; and the counter changes only on successful fresh (`reuseId = 0`)
schedules. -/
theorem claim10_reuse_frame (N func param now delay reuseId : Nat)
    (s : Scheduler) :
    (reuseId ≠ 0 → (scheduleTask N func param now delay reuseId s).2.id = s.id)
  ∧ (reuseId ≠ 0 → reuseId ∉ ids s.taskList → s.taskList.length < N →
        (scheduleTask N func param now delay reuseId s).1 = reuseId
      ∧ (scheduleTask N func param now delay reuseId s).2.taskList
          = insertTask ⟨(now + delay) % 4294967296, func, param, reuseId⟩
              ((now + delay) % 4294967296) s.taskList)
  ∧ ((scheduleTask N func param now delay reuseId s).2.id ≠ s.id →
        reuseId = 0 ∧ s.taskList.length < N) := by
  rw [scheduleTask_eq]
  refine ⟨?_, ?_, ?_⟩
  · intro hr
    simp only [if_pos hr]
    split <;> rfl
  · intro hr hnm hlen
    have hrem : removeFirstById reuseId s.taskList = s.taskList :=
      removeFirstById_of_not_mem reuseId s.taskList hnm
    simp only [if_pos hr, hrem]
    rw [if_neg (by omega)]
    exact ⟨rfl, rfl⟩
  · intro hne
    by_cases hr : reuseId ≠ 0
    · exfalso
      apply hne
      simp only [if_pos hr]
      split <;> rfl
    · push_neg at hr
      subst hr
      have hz : ¬ ((0 : Nat) ≠ 0) := by omega
      refine ⟨rfl, ?_⟩
      by_contra hlen
      push_neg at hlen
      apply hne
      simp only [if_neg hz, if_pos hlen]

theorem claim10_witness :
    (scheduleTask 10 7 0 0 5 42 (Scheduler.mk [⟨3, 0, 0, 1⟩] 6)).2.id = 6
  ∧ (scheduleTask 10 7 0 0 5 42 (Scheduler.mk [⟨3, 0, 0, 1⟩] 6)).1 = 42
  ∧ (scheduleTask 10 7 0 0 5 42 (Scheduler.mk [⟨3, 0, 0, 1⟩] 6)).2.taskList
      = [⟨3, 0, 0, 1⟩, ⟨5, 7, 0, 42⟩] := by
  have h := claim10_reuse_frame 10 7 0 0 5 42 (Scheduler.mk [⟨3, 0, 0, 1⟩] 6)
  have h2 := h.2.1 (by decide) (by decide) (by decide)
  exact ⟨h.1 (by decide), h2.1, h2.2.trans (by decide)⟩

theorem rtStep_empty (c : Nat) :
    rtStep (Scheduler.mk [] c) = Scheduler.mk [] ((c + 1) % 4294967296) := by
  unfold rtStep
  rw [scheduleTask_eq]
  simp [insertTask, insertScan, unscheduleTask, removeFirstById]

theorem rtStep_iter (k : Nat) :
    rtStep^[k] initScheduler = Scheduler.mk [] ((1 + k) % 4294967296) := by
  induction k with
  | zero => simp [initScheduler]
  | succ k ih =>
    rw [Function.iterate_succ_apply', ih, rtStep_empty]
    congr 1
    omega

/-- After `2^32 - 1` successful fresh schedule/unschedule round trips from
the freshly constructed scheduler, the identity counter has wrapped to 0. -/
theorem counter_wrap_state :
    rtStep^[4294967295] initScheduler = Scheduler.mk [] 0 := by
  rw [rtStep_iter]

/-- Claim C3 counterexample: the counter-wrap state `⟨[], _id = 0⟩` is
reachable from the initial state (by `2^32 - 1` fresh schedule/unschedule
round trips), and there a fresh `scheduleTask` returns 0 although the table
holds fewer than `N` tasks — so "returns 0 exactly when the table still
holds N tasks after any reuse-removal" fails. -/
theorem claim3_counterexample :
    rtStep^[4294967295] initScheduler = Scheduler.mk [] 0
  ∧ (scheduleTask 1 0 0 0 0 0 (Scheduler.mk [] 0)).1 = 0
  ∧ (Scheduler.mk [] 0).taskList.length < 1 :=
  ⟨counter_wrap_state, by decide, by decide⟩

/-- Claim C3 (amended): provided `reuseId ≠ 0` or the identity counter is
non-zero (the counter-wrap state is the sole exception), `scheduleTask`
returns 0 exactly when the table still holds `N` tasks after any
reuse-removal; in that case it leaves the state unchanged apart from the
reuse-removal; and a `reuseId` matching a live task on a full table frees a
slot so the insertion succeeds. -/
theorem claim3_capacity (N func param now delay reuseId : Nat) (s : Scheduler)
    (hnz : reuseId ≠ 0 ∨ s.id ≠ 0) :
    ((scheduleTask N func param now delay reuseId s).1 = 0
      ↔ N ≤ (if reuseId ≠ 0 then removeFirstById reuseId s.taskList
             else s.taskList).length)
  ∧ (N ≤ (if reuseId ≠ 0 then removeFirstById reuseId s.taskList
          else s.taskList).length →
        (scheduleTask N func param now delay reuseId s).2
          = { s with taskList := if reuseId ≠ 0
                then removeFirstById reuseId s.taskList else s.taskList })
  ∧ (reuseId ≠ 0 → reuseId ∈ ids s.taskList → s.taskList.length = N →
        (scheduleTask N func param now delay reuseId s).1 = reuseId) := by
  rw [scheduleTask_eq]
  have hL : (if reuseId ≠ 0 then reuseId else s.id) ≠ 0 := by
    by_cases hr : reuseId ≠ 0
    · rw [if_pos hr]; exact hr
    · rw [if_neg hr]
      rcases hnz with h | h
      · exact absurd h hr
      · exact h
  refine ⟨?_, ?_, ?_⟩
  · by_cases hcap : N ≤ (if reuseId ≠ 0 then removeFirstById reuseId s.taskList
        else s.taskList).length
    · rw [if_pos hcap]
      simpa using hcap
    · rw [if_neg hcap]
      constructor
      · intro h0
        exact absurd h0 hL
      · intro h
        exact absurd h hcap
  · intro hcap
    rw [if_pos hcap]
  · intro hr hm hlen
    have hrl := length_removeFirstById_of_mem reuseId s.taskList hm
    have hcap : ¬ N ≤ (if reuseId ≠ 0 then removeFirstById reuseId s.taskList
        else s.taskList).length := by
      rw [if_pos hr]
      omega
    rw [if_neg hcap, if_pos hr]

theorem claim3_witness :
    (scheduleTask 1 9 0 0 5 0 (Scheduler.mk [⟨5, 0, 0, 3⟩] 7)).1 = 0
  ∧ (scheduleTask 1 9 0 0 5 0 (Scheduler.mk [⟨5, 0, 0, 3⟩] 7)).2
      = Scheduler.mk [⟨5, 0, 0, 3⟩] 7
  ∧ (scheduleTask 2 9 0 0 5 4 (Scheduler.mk [⟨5, 0, 0, 4⟩, ⟨6, 0, 0, 2⟩] 7)).1
      = 4 := by
  have h := claim3_capacity 1 9 0 0 5 0 (Scheduler.mk [⟨5, 0, 0, 3⟩] 7)
    (Or.inr (by decide))
  have h2 := claim3_capacity 2 9 0 0 5 4
    (Scheduler.mk [⟨5, 0, 0, 4⟩, ⟨6, 0, 0, 2⟩] 7) (Or.inl (by decide))
  exact ⟨h.1.mpr (by decide), (h.2.1 (by decide)).trans (by decide),
    h2.2.2 (by decide) (by decide) (by decide)⟩

/-- Claim C4 counterexample: at the reachable counter-wrap state, a
successful fresh `scheduleTask` (a free slot is found and the task is
inserted) returns id 0 — so "for every successful call the returned id is
non-zero … including after the counter wraps" fails. -/
theorem claim4_counterexample :
    rtStep^[4294967295] initScheduler = Scheduler.mk [] 0
  ∧ (scheduleTask 1 0 0 0 0 0 (Scheduler.mk [] 0)).2.taskList
      = [⟨0, 0, 0, 0⟩]
  ∧ (scheduleTask 1 0 0 0 0 0 (Scheduler.mk [] 0)).1 = 0 :=
  ⟨counter_wrap_state, by decide, by decide⟩

/-- Claim C4 (amended): every successful `scheduleTask` call returns
`reuseId` when `reuseId ≠ 0` and the identity counter's current value
otherwise; the returned id is non-zero provided the counter has not wrapped
to 0 (or `reuseId ≠ 0`); on fresh schedules the counter is incremented
modulo 2^32 without skipping 0, and on reuse schedules it is untouched. -/
theorem claim4_id_assignment (N func param now delay reuseId : Nat)
    (s : Scheduler)
    (hroom : (if reuseId ≠ 0 then removeFirstById reuseId s.taskList
              else s.taskList).length < N) :
    (scheduleTask N func param now delay reuseId s).1
        = (if reuseId ≠ 0 then reuseId else s.id)
  ∧ (reuseId ≠ 0 ∨ s.id ≠ 0 →
        (scheduleTask N func param now delay reuseId s).1 ≠ 0)
  ∧ (reuseId = 0 → (scheduleTask N func param now delay reuseId s).2.id
        = (s.id + 1) % 4294967296)
  ∧ (reuseId ≠ 0 → (scheduleTask N func param now delay reuseId s).2.id
        = s.id) := by
  rw [scheduleTask_eq, if_neg (by omega)]
  refine ⟨rfl, ?_, ?_, ?_⟩
  · intro hnz
    by_cases hr : reuseId ≠ 0
    · simpa [if_pos hr] using hr
    · rcases hnz with h | h
      · exact absurd h hr
      · simpa [if_neg hr] using h
  · intro hr
    simp [hr]
  · intro hr
    simp [if_pos hr]

theorem claim4_witness :
    (scheduleTask 10 7 0 0 5 0 (Scheduler.mk [] 5)).1 = 5
  ∧ (scheduleTask 10 7 0 0 5 0 (Scheduler.mk [] 5)).1 ≠ 0
  ∧ (scheduleTask 10 7 0 0 5 0 (Scheduler.mk [] 5)).2.id = 6 := by
  have h := claim4_id_assignment 10 7 0 0 5 0 (Scheduler.mk [] 5) (by decide)
  exact ⟨h.1.trans (by decide), h.2.1 (Or.inr (by decide)),
    (h.2.2.1 rfl).trans (by decide)⟩

theorem insert_ids_perm (nt : Task) (target : Nat) (l : List Task) :
    (ids (insertTask nt target l)).Perm (nt.id :: ids l) := by
  have mid : ∀ (A B : List Task),
      (ids (A ++ nt :: B)).Perm (nt.id :: ids (A ++ B)) := by
    intro A B
    simp only [ids, List.map_append, List.map_cons]
    exact List.perm_middle
  obtain ⟨h1, h2⟩ := insertTask_split nt target l
  have h3 := mid
    ((l.reverse.dropWhile (fun t => shiftCond target t.executeTime)).reverse)
    ((l.reverse.takeWhile (fun t => shiftCond target t.executeTime)).reverse)
  rw [h2] at h3
  rw [h1]
  exact h3

/-- Claim C7 counterexample: scheduling with `reuseId = 1` into a fresh
scheduler (whose identity counter is still 1) and then scheduling fresh
yields two live tasks that both carry id 1 — reachable in two calls from
the initial state, so "no two live slots share the same id … including
states reached through schedules with arbitrary non-zero reuseId values"
fails. -/
theorem claim7_counterexample :
    ids (scheduleTask 2 0 0 0 9 0
        (scheduleTask 2 0 0 0 5 1 initScheduler).2).2.taskList = [1, 1]
  ∧ ¬ (ids (scheduleTask 2 0 0 0 9 0
        (scheduleTask 2 0 0 0 5 1 initScheduler).2).2.taskList).Nodup :=
  ⟨by decide, by decide⟩

/-- Claim C7 (amended): non-zeroness and distinctness of live ids are
preserved by every operation, provided each fresh (`reuseId = 0`) schedule
is made while the identity counter is non-zero and differs from every live
id (which the unamended claim's arbitrary reuse ids and counter wrap can
violate). -/
theorem claim7_ids_invariant (N func param now delay reuseId tid now2 : Nat)
    (s : Scheduler)
    (h0 : 0 ∉ ids s.taskList) (hnd : (ids s.taskList).Nodup) :
    (0 ∉ ids (unscheduleTask tid s).taskList
      ∧ (ids (unscheduleTask tid s).taskList).Nodup)
  ∧ (0 ∉ ids (update now2 s).2.taskList
      ∧ (ids (update now2 s).2.taskList).Nodup)
  ∧ (reuseId ≠ 0 →
        0 ∉ ids (scheduleTask N func param now delay reuseId s).2.taskList
      ∧ (ids (scheduleTask N func param now delay reuseId s).2.taskList).Nodup)
  ∧ (reuseId = 0 → s.id ≠ 0 → s.id ∉ ids s.taskList →
        0 ∉ ids (scheduleTask N func param now delay reuseId s).2.taskList
      ∧ (ids (scheduleTask N func param now delay reuseId s).2.taskList).Nodup)
    := by
  refine ⟨?_, ?_, ?_, ?_⟩
  · have hsub := (removeFirstById_sublist tid s.taskList).map Task.id
    exact ⟨fun hm => h0 (hsub.subset hm), List.Nodup.sublist hsub hnd⟩
  · have hupd : (update now2 s).2.taskList
        = s.taskList.dropWhile (fun t => dueCond now2 t.executeTime) := by
      simp [update, drain_spec]
    rw [hupd]
    have hsubl : (s.taskList.dropWhile
        (fun t => dueCond now2 t.executeTime)).Sublist s.taskList :=
      List.dropWhile_sublist _
    have hsub := hsubl.map Task.id
    exact ⟨fun hm => h0 (hsub.subset hm), List.Nodup.sublist hsub hnd⟩
  · intro hr
    have heq := scheduleTask_eq N func param now delay reuseId s
    simp only [if_pos hr] at heq
    have hsub := (removeFirstById_sublist reuseId s.taskList).map Task.id
    by_cases hcap : N ≤ (removeFirstById reuseId s.taskList).length
    · rw [heq, if_pos hcap]
      exact ⟨fun hm => h0 (hsub.subset hm), List.Nodup.sublist hsub hnd⟩
    · rw [heq, if_neg hcap]
      have hperm := insert_ids_perm
        ⟨(now + delay) % 4294967296, func, param, reuseId⟩
        ((now + delay) % 4294967296) (removeFirstById reuseId s.taskList)
      constructor
      · intro hm
        rcases List.mem_cons.mp (hperm.mem_iff.mp hm) with h | h
        · exact hr h.symm
        · exact h0 (hsub.subset h)
      · rw [hperm.nodup_iff, List.nodup_cons]
        exact ⟨not_mem_removeFirstById reuseId s.taskList hnd,
               List.Nodup.sublist hsub hnd⟩
  · intro hr hc hfr
    subst hr
    have hz : ¬ ((0 : Nat) ≠ 0) := by omega
    have heq := scheduleTask_eq N func param now delay 0 s
    simp only [if_neg hz] at heq
    by_cases hcap : N ≤ s.taskList.length
    · rw [heq, if_pos hcap]
      exact ⟨h0, hnd⟩
    · rw [heq, if_neg hcap]
      have hperm := insert_ids_perm
        ⟨(now + delay) % 4294967296, func, param, s.id⟩
        ((now + delay) % 4294967296) s.taskList
      constructor
      · intro hm
        rcases List.mem_cons.mp (hperm.mem_iff.mp hm) with h | h
        · exact hc h.symm
        · exact h0 h
      · rw [hperm.nodup_iff, List.nodup_cons]
        exact ⟨hfr, hnd⟩

theorem claim7_witness :
    0 ∉ ids (scheduleTask 10 7 0 0 5 0 (Scheduler.mk [⟨3, 0, 0, 1⟩] 2)).2.taskList
  ∧ (ids (scheduleTask 10 7 0 0 5 0
      (Scheduler.mk [⟨3, 0, 0, 1⟩] 2)).2.taskList).Nodup := by
  have h := claim7_ids_invariant 10 7 0 0 5 0 9 4 (Scheduler.mk [⟨3, 0, 0, 1⟩] 2)
    (by decide) (by decide)
  exact h.2.2.2 rfl (by decide) (by decide)

/-- Claim C8 counterexample: a reachable state with distinct live ids and a
free slot (one reuse-schedule from the initial state, counter still 1) in
which `schedule(reuseId = 0)` followed by `unschedule` of the returned id
removes the wrong task: the fresh id collides with the live id 1, the scan
removes the first match, and the table is not restored. -/
theorem claim8_counterexample :
    (scheduleTask 2 0 0 0 100 1 initScheduler).2
        = Scheduler.mk [⟨100, 0, 0, 1⟩] 1
  ∧ (ids (Scheduler.mk [⟨100, 0, 0, 1⟩] 1).taskList).Nodup
  ∧ (Scheduler.mk [⟨100, 0, 0, 1⟩] 1).taskList.length < 2
  ∧ unscheduleTask
        (scheduleTask 2 0 0 0 200 0 (Scheduler.mk [⟨100, 0, 0, 1⟩] 1)).1
        (scheduleTask 2 0 0 0 200 0 (Scheduler.mk [⟨100, 0, 0, 1⟩] 1)).2
      = Scheduler.mk [⟨200, 0, 0, 1⟩] 2
  ∧ Scheduler.mk [⟨200, 0, 0, 1⟩] 2 ≠ Scheduler.mk [⟨100, 0, 0, 1⟩] 2 :=
  ⟨by decide, by decide, by decide, by decide, by decide⟩

/-- Claim C8 (amended): from any state with a free slot and distinct live
ids in which additionally the identity counter's current value is not the
id of any live task, `schedule(…, reuseId = 0) → id; unschedule(id)`
restores the task table exactly, the only difference being the identity
counter incremented by one (modulo 2^32). -/
theorem claim8_roundtrip (N func param now delay : Nat) (s : Scheduler)
    (hroom : s.taskList.length < N) (hnd : (ids s.taskList).Nodup)
    (hfresh : s.id ∉ ids s.taskList) :
    unscheduleTask (scheduleTask N func param now delay 0 s).1
        (scheduleTask N func param now delay 0 s).2
      = Scheduler.mk s.taskList ((s.id + 1) % 4294967296) := by
  have hz : ¬ ((0 : Nat) ≠ 0) := by omega
  rw [scheduleTask_eq]
  simp only [if_neg hz]
  rw [if_neg (by omega)]
  unfold unscheduleTask
  obtain ⟨h1, h2⟩ := insertTask_split
    ⟨(now + delay) % 4294967296, func, param, s.id⟩
    ((now + delay) % 4294967296) s.taskList
  have hnm : s.id ∉ ids ((s.taskList.reverse.dropWhile
      (fun t => shiftCond ((now + delay) % 4294967296) t.executeTime)).reverse) := by
    intro hm
    apply hfresh
    simp only [ids, List.mem_map] at hm ⊢
    obtain ⟨t, ht, hid⟩ := hm
    refine ⟨t, ?_, hid⟩
    rw [← h2]
    exact List.mem_append_left _ ht
  have hrem := removeFirstById_append s.id
    ⟨(now + delay) % 4294967296, func, param, s.id⟩
    ((s.taskList.reverse.dropWhile
       (fun t => shiftCond ((now + delay) % 4294967296) t.executeTime)).reverse)
    ((s.taskList.reverse.takeWhile
       (fun t => shiftCond ((now + delay) % 4294967296) t.executeTime)).reverse)
    rfl hnm
  rw [h1, hrem, h2]

theorem claim8_witness :
    unscheduleTask
        (scheduleTask 10 7 0 0 5 0 (Scheduler.mk [⟨3, 0, 0, 1⟩] 2)).1
        (scheduleTask 10 7 0 0 5 0 (Scheduler.mk [⟨3, 0, 0, 1⟩] 2)).2
      = Scheduler.mk [⟨3, 0, 0, 1⟩] 3 := by
  have h := claim8_roundtrip 10 7 0 0 5 (Scheduler.mk [⟨3, 0, 0, 1⟩] 2)
    (by decide) (by decide) (by decide)
  exact h.trans (by decide)

end Sched
